import Mathlib

set_option linter.unusedVariables false

/-!
Formal model of the question-paper generator in `src/main.py`.

The Python module reads a delimited question bank (`read_question_bank`),
draws questions per topic and per mark value (`select_questions`,
`create_question_paper` lines 86-108), groups the selection by mark value
(lines 110-118) and renders a document (lines 118-129).

Python dicts are modelled as association lists in key-insertion order
(CPython dicts iterate in insertion order).  Python exceptions are modelled
with `Except`.  The two random primitives `random.sample` and
`random.choices` are passed in as oracle functions, with their CPython
contracts stated as predicates (`SampleOK`, `ChoicesOK`); theorems hold for
every oracle satisfying the contract, hence for every random outcome.
-/

/-- A question record: the Python tuple
`(question_text, image_path, options, marks)` built at line 50 of
`read_question_bank`.  Field 3 (`marks`) is the tuple component `q[3]`. -/
structure QuestionRecord where
  text : String
  imagePath : Option String
  options : List String
  marks : Int
  deriving DecidableEq, Repr

/-- Lookup in an association list (the model of `d[k]` / `d.get(k)` on a
Python dict whose entries are kept in insertion order). -/
def alookup {α β : Type} [DecidableEq α] : List (α × β) → α → Option β
  | [], _ => none
  | (k, v) :: rest, a => if k = a then some v else alookup rest a

/-- The question bank: topic -> mark value -> list of records
(`topics` in `main.py`). -/
abbrev Bank := List (String × List (Int × List QuestionRecord))

/-- The pool access `topics.get(topic, {}).get(marks, [])` (line 92 of `main.py`). -/
def getPool (topics : Bank) (topic : String) (marks : Int) : List QuestionRecord :=
  (alookup ((alookup topics topic).getD []) marks).getD []

/-- Python exceptions raised by the modelled code paths. -/
inductive PyError where
  /-- Python `IndexError`, raised by `random.choices` on an empty population. -/
  | indexError
  /-- Python `ValueError`, raised by `int(...)` on a non-numeric string. -/
  | valueError
  /-- Python `FileNotFoundError`, raised by `doc.add_picture` on a missing file. -/
  | fileNotFound (path : String)
  deriving DecidableEq, Repr

/-- Contract of `random.sample(l, n)` for `0 ≤ n ≤ |l|` (CPython: a sample of
`n` elements drawn at distinct positions, i.e. the result is a permutation of
a sublist of the population, of length exactly `n`). -/
def SampleOK (S : List QuestionRecord → Nat → List QuestionRecord) : Prop :=
  ∀ l n, n ≤ l.length → (S l n).length = n ∧ (S l n).Subperm l

/-- Contract of `random.choices(l, k)` on a non-empty population `l`
(CPython: `k` independent draws with replacement, each a member of `l`). -/
def ChoicesOK (C : List QuestionRecord → Nat → List QuestionRecord) : Prop :=
  ∀ l k, l ≠ [] → (C l k).length = k ∧ ∀ x ∈ C l k, x ∈ l

/-- Model of `select_questions` (`main.py` lines 7-18).

```
if num_questions <= len(questions_list):
    return random.sample(questions_list, num_questions)
else:
    return questions_list + random.choices(questions_list,
                                           k=num_questions - len(questions_list))
```

`random.sample` never fails in the first branch; in the second branch
`random.choices` on an empty population raises `IndexError` (and in that
branch the requested tail length `num_questions - len` is positive). -/
def select_questions (S C : List QuestionRecord → Nat → List QuestionRecord)
    (questions_list : List QuestionRecord) (num_questions : Nat) :
    Except PyError (List QuestionRecord) :=
  if num_questions ≤ questions_list.length then
    Except.ok (S questions_list num_questions)
  else if questions_list.isEmpty then
    Except.error PyError.indexError
  else
    Except.ok (questions_list ++ C questions_list (num_questions - questions_list.length))

/-- A deterministic instance of the `random.sample` contract: take the first
`n` elements. -/
def sampleFirst (l : List QuestionRecord) (n : Nat) : List QuestionRecord :=
  l.take n

/-- A deterministic instance of the `random.choices` contract: repeat the
head of the population. -/
def choicesFirst (l : List QuestionRecord) (k : Nat) : List QuestionRecord :=
  match l with
  | [] => []
  | x :: _ => List.replicate k x

theorem sampleFirst_ok : SampleOK sampleFirst := by
  intro l n hn
  constructor
  · simpa [sampleFirst] using hn
  · exact (List.take_sublist n l).subperm

theorem choicesFirst_ok : ChoicesOK choicesFirst := by
  intro l k hl
  cases l with
  | nil => exact absurd rfl hl
  | cons x xs =>
    refine ⟨by simp [choicesFirst], ?_⟩
    intro y hy
    have : y = x := List.eq_of_mem_replicate hy
    simp [this]

/-- The count `sum(q[3] == mark for q in selected_questions)` (line 96): the number of
selected records whose `marks` field equals `m`. -/
def countMarks (sel : List QuestionRecord) (m : Int) : Nat :=
  (sel.filter (fun q => q.marks == m)).length

/-- Inner loop of the topic-specific phase (`main.py` lines 90-93): for each
`(marks, num_questions)` entry of one topic's quota, if `marks` is a key of
`num_questions_per_type`, draw from `topics.get(topic, {}).get(marks, [])`
and accumulate; a raised exception aborts the whole loop. -/
def topic_phase_inner (S C : List QuestionRecord → Nat → List QuestionRecord)
    (topics : Bank) (nqt : List (Int × Nat)) (topic : String) :
    List (Int × Nat) → Except PyError (List QuestionRecord)
  | [] => Except.ok []
  | (marks, n) :: rest =>
    if (alookup nqt marks).isSome then do
      let r ← select_questions S C (getPool topics topic marks) n
      let rs ← topic_phase_inner S C topics nqt topic rest
      pure (r ++ rs)
    else
      topic_phase_inner S C topics nqt topic rest

/-- Topic-specific phase (`main.py` lines 88-93): iterate
`specific_topic_questions.items()` in insertion order, accumulating the
draws of `topic_phase_inner`. -/
def topic_phase (S C : List QuestionRecord → Nat → List QuestionRecord)
    (topics : Bank) (nqt : List (Int × Nat)) :
    List (String × List (Int × Nat)) → Except PyError (List QuestionRecord)
  | [] => Except.ok []
  | (topic, byMarks) :: rest => do
    let r ← topic_phase_inner S C topics nqt topic byMarks
    let rs ← topic_phase S C topics nqt rest
    pure (r ++ rs)

/-- Model of `remaining_questions_per_type` (lines 96-97):
`{mark: count - sum(q[3] == mark for q in selected_questions) for ...}`.
Python integer subtraction can go negative, so the values are `Int`. -/
def remaining_questions_per_type (nqt : List (Int × Nat))
    (sel : List QuestionRecord) : List (Int × Int) :=
  nqt.map (fun p => (p.1, (p.2 : Int) - countMarks sel p.1))

/-- The generic pool for a mark value (lines 104-107): all records of that
mark value across all topics except the hard-coded `"Current Electricity"`. -/
def generic_pool (topics : Bank) (marks : Int) : List QuestionRecord :=
  topics.flatMap
    (fun p => if p.1 ≠ "Current Electricity" then (alookup p.2 marks).getD [] else [])

/-- Generic phase (lines 102-108): for each mark value with a positive
remaining count, draw from the generic pool and accumulate. -/
def generic_phase (S C : List QuestionRecord → Nat → List QuestionRecord)
    (topics : Bank) : List (Int × Int) → Except PyError (List QuestionRecord)
  | [] => Except.ok []
  | (marks, n) :: rest =>
    if 0 < n then do
      let r ← select_questions S C (generic_pool topics marks) n.toNat
      let rs ← generic_phase S C topics rest
      pure (r ++ rs)
    else
      generic_phase S C topics rest

/-- The selection part of `create_question_paper` (lines 86-108): the
topic-specific phase, then — when some remaining count is positive — the
generic phase on the remaining counts. -/
def create_selection (S C : List QuestionRecord → Nat → List QuestionRecord)
    (topics : Bank) (nqt : List (Int × Nat))
    (stq : List (String × List (Int × Nat))) : Except PyError (List QuestionRecord) := do
  let sel1 ← topic_phase S C topics nqt stq
  let rem := remaining_questions_per_type nqt sel1
  if rem.any (fun p => 0 < p.2) then
    let sel2 ← generic_phase S C topics rem
    pure (sel1 ++ sel2)
  else
    pure sel1

/-- One step of the grouping loop (`main.py` lines 111-116): append `q` to
the entry for `q.marks`, creating the entry at the end (dict key-insertion
order) when absent. -/
def groupInsert (g : List (Int × List QuestionRecord)) (q : QuestionRecord) :
    List (Int × List QuestionRecord) :=
  match g with
  | [] => [(q.marks, [q])]
  | (m, qs) :: rest =>
    if m = q.marks then (m, qs ++ [q]) :: rest else (m, qs) :: groupInsert rest q

/-- The grouping loop of lines 111-116, folding `groupInsert` over the
selection in order. -/
def group_loop (acc : List (Int × List QuestionRecord)) :
    List QuestionRecord → List (Int × List QuestionRecord)
  | [] => acc
  | q :: rest => group_loop (groupInsert acc q) rest

/-- Model of `questions_by_marks` (lines 111-116): group the selection by the `marks`
field, keys in first-occurrence order, each group in selection order. -/
def questions_by_marks (sel : List QuestionRecord) : List (Int × List QuestionRecord) :=
  group_loop [] sel

/-- The distinct mark values of `sel` that are not in `ks`, in order of first
occurrence (specification helper for the key order of `questions_by_marks`). -/
def marksKeys (ks : List Int) : List QuestionRecord → List Int
  | [] => []
  | q :: rest =>
    if q.marks ∈ ks then marksKeys ks rest else q.marks :: marksKeys (q.marks :: ks) rest

/-- The distinct mark values of a selection in first-occurrence order. -/
def groupKeys (sel : List QuestionRecord) : List Int :=
  marksKeys [] sel

/-- One rendered element of the output document (the observable effect of
`doc.add_heading` / `doc.add_paragraph` / `doc.add_picture`). -/
inductive DocItem where
  | heading (text : String) (level : Nat)
  | paragraph (text : String)
  | bullet (text : String)
  | picture (path : String)
  deriving DecidableEq, Repr

/-- The option label of line 124, `chr(65 + i)` followed by the option text. -/
def optionLabel (i : Nat) (opt : String) : String :=
  (Char.ofNat (65 + i)).toString ++ ". " ++ opt

/-- Rendering of one question (lines 120-126), where `marks` is the mark
value of the enclosing group (the loop variable of line 118).  The
paragraph, then — for a 1-mark question with options — lettered bullets,
then the picture.  `doc.add_picture` on an unresolvable path raises
`FileNotFoundError` (no handler exists in `add_image_to_document` or its
caller), which is modelled by `resolve` answering `false`.  Python's
`if image_path:` is falsy both for `None` and for the empty string. -/
def render_question (resolve : String → Bool) (marks : Int) (q : QuestionRecord) :
    Except PyError (List DocItem) := do
  let imgs ← match q.imagePath with
    | none => pure ([] : List DocItem)
    | some p =>
      if p.data.isEmpty then pure ([] : List DocItem)
      else if resolve p then pure [DocItem.picture p]
      else Except.error (PyError.fileNotFound p)
  pure (DocItem.paragraph ("Question: " ++ q.text) ::
    (if marks == 1 && !q.options.isEmpty then
      q.options.enum.map (fun p => DocItem.bullet (optionLabel p.1 p.2))
    else []) ++ imgs)

/-- Rendering of the questions of one mark-value group, in group order
(inner loop of lines 120-126). -/
def render_section_questions (resolve : String → Bool) (marks : Int) :
    List QuestionRecord → Except PyError (List DocItem)
  | [] => Except.ok []
  | q :: rest => do
    let d ← render_question resolve marks q
    let ds ← render_section_questions resolve marks rest
    pure (d ++ ds)

/-- Rendering of the grouped selection (lines 118-126): one level-1 heading
`f"{marks}-Mark Questions"` per group, in group order, followed by the
group's questions. -/
def render_groups (resolve : String → Bool) :
    List (Int × List QuestionRecord) → Except PyError (List DocItem)
  | [] => Except.ok []
  | (marks, qs) :: rest => do
    let d ← render_section_questions resolve marks qs
    let ds ← render_groups resolve rest
    pure (DocItem.heading (toString marks ++ "-Mark Questions") 1 :: (d ++ ds))

/-- The rendering part of `create_question_paper` (lines 84 and 110-126):
the top-level title, then the grouped sections.  An exception escaping the
rendering loop aborts the function before `doc.save` (line 129), so on
error no document is produced. -/
def create_document (resolve : String → Bool) (sel : List QuestionRecord) :
    Except PyError (List DocItem) := do
  let body ← render_groups resolve (questions_by_marks sel)
  pure (DocItem.heading "Question Paper" 0 :: body)

/-- All of `create_question_paper` (lines 71-129): selection followed by
rendering; the saved document is the `Except.ok` payload. -/
def create_question_paper (S C : List QuestionRecord → Nat → List QuestionRecord)
    (resolve : String → Bool) (topics : Bank) (nqt : List (Int × Nat))
    (stq : List (String × List (Int × Nat))) : Except PyError (List DocItem) := do
  let sel ← create_selection S C topics nqt stq
  create_document resolve sel

/-- Association-list update: the model of
`if k not in d: d[k] = dflt` followed by an in-place update of `d[k]`. -/
def aupdate {α β : Type} [DecidableEq α] (l : List (α × β)) (a : α) (dflt : β)
    (f : β → β) : List (α × β) :=
  match l with
  | [] => [(a, f dflt)]
  | (k, v) :: rest => if k = a then (a, f v) :: rest else (k, v) :: aupdate rest a dflt f

/-- Lines 46-50 of `read_question_bank`: ensure `topics[topic]` and
`topics[topic][marks]` exist, then append the record tuple
`(question_text, image_path, options, marks)`. -/
def insert_question (topics : Bank) (topic : String) (marks : Int)
    (q : QuestionRecord) : Bank :=
  aupdate topics topic [] (fun tq => aupdate tq marks [] (fun qs => qs ++ [q]))

/-- Python `str.strip()` over the character list: drop whitespace at both
ends. -/
def stripList (cs : List Char) : List Char :=
  ((cs.dropWhile Char.isWhitespace).reverse.dropWhile Char.isWhitespace).reverse

/-- Python `str.split('|')` over the character list: `"".split('|')` is
`[""]`, and each `'|'` starts a new field. -/
def splitOnPipe : List Char → List (List Char)
  | [] => [[]]
  | c :: rest =>
    if c = '|' then [] :: splitOnPipe rest
    else
      match splitOnPipe rest with
      | [] => [[c]]
      | f :: fs => (c :: f) :: fs

/-- Decimal digit accumulation for `int(...)`: `none` on any non-digit. -/
def digitsVal (acc : Nat) : List Char → Option Nat
  | [] => some acc
  | c :: rest =>
    if c.isDigit then digitsVal (acc * 10 + (c.toNat - 48)) rest else none

/-- Python `int(s)` on the relevant fragment: optional surrounding
whitespace, optional sign, one or more decimal digits; anything else is a
`ValueError` (`none`).  (Python's underscore digit-group syntax is not
modelled; no claim depends on it.) -/
def parseIntPy (cs : List Char) : Option Int :=
  match stripList cs with
  | [] => none
  | '-' :: rest =>
    if rest.isEmpty then none
    else (digitsVal 0 rest).map (fun n => -(n : Int))
  | '+' :: rest =>
    if rest.isEmpty then none
    else (digitsVal 0 rest).map (fun n => (n : Int))
  | c :: rest => (digitsVal 0 (c :: rest)).map (fun n => (n : Int))

/-- The backslash character (escape-sequence marker of line 41). -/
def chr92 : Char := Char.ofNat 92

/-- Python `s.replace("\\u03A9", "Ω")` (line 41): whether the next five
characters spell `u03A9`. -/
def isOmegaEscape (cs : List Char) : Bool :=
  match cs with
  | u :: d0 :: d3 :: dA :: d9 :: _ =>
    u = 'u' && d0 = '0' && d3 = '3' && dA = 'A' && d9 = '9'
  | _ => false

/-- Left-to-right replacement loop of `str.replace`, fuelled by the input
length so that the recursion is structural (each step consumes at least one
character, so the fuel never runs out on `replaceOmega`). -/
def replaceOmegaGo : Nat → List Char → List Char
  | _, [] => []
  | 0, cs => cs
  | fuel + 1, c :: rest =>
    if c = chr92 && isOmegaEscape rest then
      'Ω' :: replaceOmegaGo fuel (rest.drop 5)
    else
      c :: replaceOmegaGo fuel rest

/-- Python `s.replace("\\u03A9", "Ω")` (line 41): replace every occurrence
of the six-character sequence backslash-`u03A9` by the ohm sign, scanning
left to right. -/
def replaceOmega (cs : List Char) : List Char :=
  replaceOmegaGo cs.length cs

/-- Parsing of one line (lines 39-44): `line.strip().split('|')`, then
`topic = parts[0]`, `question_text = parts[1]` with the escape sequence
replaced, `marks = int(parts[2])`, `image_path = parts[3] if len(parts) > 3
else None`, `options = parts[4:]`.  Fewer than three fields raises
`IndexError` (`parts[1]` or `parts[2]` out of range); a non-numeric marks
field raises `ValueError` from `int(...)`.  String primitives are modelled
over `List Char` so that concrete runs evaluate. -/
def parse_line (line : String) : Except PyError (String × Int × QuestionRecord) :=
  match splitOnPipe (stripList line.data) with
  | topicCs :: questionCs :: marksCs :: rest =>
    match parseIntPy marksCs with
    | some marks =>
      Except.ok (⟨topicCs⟩, marks,
        ⟨⟨replaceOmega questionCs⟩,
         (rest.head?).map (fun cs => (⟨cs⟩ : String)),
         (rest.drop 1).map (fun cs => (⟨cs⟩ : String)), marks⟩)
    | none => Except.error PyError.valueError
  | _ => Except.error PyError.indexError

/-- The loader loop of `read_question_bank` (lines 36-51), over the list of
lines of the input file. -/
def read_loop (b : Bank) : List String → Except PyError Bank
  | [] => Except.ok b
  | line :: rest => do
    let t ← parse_line line
    read_loop (insert_question b t.1 t.2.1 t.2.2) rest

/-- Model of `read_question_bank` (lines 29-51). -/
def read_question_bank (lines : List String) : Except PyError Bank :=
  read_loop [] lines

/-- Bank well-formedness: every record stored under `bank[t][m]` carries
`marks = m`. -/
def BankWF (topics : Bank) : Prop :=
  ∀ p ∈ topics, ∀ e ∈ p.2, ∀ q ∈ e.2, q.marks = e.1

/-- The bank read of line 92, `topics.get(topic, {}).get(marks, [])`, with
the bank state it leaves behind: CPython `dict.get` does not modify the
dictionary, so the state component is the input bank. -/
def bank_read_pool (b : Bank) (topic : String) (marks : Int) :
    Bank × List QuestionRecord :=
  (b, getPool b topic marks)

/-- The bank reads of lines 104-107 (`topics.items()` and
`topic_questions.get(marks, [])`), with the bank state they leave behind:
CPython `dict.items` and `dict.get` do not modify the dictionary. -/
def bank_read_generic (b : Bank) (marks : Int) :
    Bank × List QuestionRecord :=
  (b, generic_pool b marks)

/-- State-threaded variant of `topic_phase_inner`: the bank is passed
through every operation the loop performs on it. -/
def topic_phase_inner_st (S C : List QuestionRecord → Nat → List QuestionRecord)
    (b : Bank) (nqt : List (Int × Nat)) (topic : String) :
    List (Int × Nat) → Bank × Except PyError (List QuestionRecord)
  | [] => (b, Except.ok [])
  | (marks, n) :: rest =>
    if (alookup nqt marks).isSome then
      let bp := bank_read_pool b topic marks
      match select_questions S C bp.2 n with
      | Except.error e => (bp.1, Except.error e)
      | Except.ok r =>
        match topic_phase_inner_st S C bp.1 nqt topic rest with
        | (b2, Except.error e) => (b2, Except.error e)
        | (b2, Except.ok rs) => (b2, Except.ok (r ++ rs))
    else
      topic_phase_inner_st S C b nqt topic rest

/-- State-threaded variant of `topic_phase`. -/
def topic_phase_st (S C : List QuestionRecord → Nat → List QuestionRecord)
    (b : Bank) (nqt : List (Int × Nat)) :
    List (String × List (Int × Nat)) → Bank × Except PyError (List QuestionRecord)
  | [] => (b, Except.ok [])
  | (topic, byMarks) :: rest =>
    match topic_phase_inner_st S C b nqt topic byMarks with
    | (b1, Except.error e) => (b1, Except.error e)
    | (b1, Except.ok r) =>
      match topic_phase_st S C b1 nqt rest with
      | (b2, Except.error e) => (b2, Except.error e)
      | (b2, Except.ok rs) => (b2, Except.ok (r ++ rs))

/-- State-threaded variant of `generic_phase`. -/
def generic_phase_st (S C : List QuestionRecord → Nat → List QuestionRecord)
    (b : Bank) : List (Int × Int) → Bank × Except PyError (List QuestionRecord)
  | [] => (b, Except.ok [])
  | (marks, n) :: rest =>
    if 0 < n then
      let bp := bank_read_generic b marks
      match select_questions S C bp.2 n.toNat with
      | Except.error e => (bp.1, Except.error e)
      | Except.ok r =>
        match generic_phase_st S C bp.1 rest with
        | (b2, Except.error e) => (b2, Except.error e)
        | (b2, Except.ok rs) => (b2, Except.ok (r ++ rs))
    else
      generic_phase_st S C b rest

/-- State-threaded variant of the whole of `create_question_paper`
(selection and rendering); the rendering loop of lines 110-126 performs no
operation on the bank at all. -/
def create_question_paper_st (S C : List QuestionRecord → Nat → List QuestionRecord)
    (resolve : String → Bool) (b : Bank) (nqt : List (Int × Nat))
    (stq : List (String × List (Int × Nat))) :
    Bank × Except PyError (List DocItem) :=
  match topic_phase_st S C b nqt stq with
  | (b1, Except.error e) => (b1, Except.error e)
  | (b1, Except.ok sel1) =>
    let rem := remaining_questions_per_type nqt sel1
    if rem.any (fun p => 0 < p.2) then
      match generic_phase_st S C b1 rem with
      | (b2, Except.error e) => (b2, Except.error e)
      | (b2, Except.ok sel2) => (b2, create_document resolve (sel1 ++ sel2))
    else
      (b1, create_document resolve sel1)

theorem alookup_mem {α β : Type} [DecidableEq α] {l : List (α × β)} {a : α} {v : β}
    (h : alookup l a = some v) : (a, v) ∈ l := by
  induction l with
  | nil => simp [alookup] at h
  | cons p rest ih =>
    obtain ⟨k, w⟩ := p
    by_cases hk : k = a
    · subst hk
      simp [alookup] at h
      simp [h]
    · simp [alookup, hk] at h
      exact List.mem_cons_of_mem _ (ih h)

theorem alookup_isSome_of_mem {α β : Type} [DecidableEq α] {l : List (α × β)}
    {p : α × β} (h : p ∈ l) : (alookup l p.1).isSome := by
  induction l with
  | nil => simp at h
  | cons q rest ih =>
    obtain ⟨k, w⟩ := q
    by_cases hk : k = p.1
    · simp [alookup, hk]
    · rcases List.mem_cons.mp h with h1 | h1
      · subst h1; simp at hk
      · simpa [alookup, hk] using ih h1

theorem getPool_marks {topics : Bank} (hWF : BankWF topics) {topic : String}
    {marks : Int} {q : QuestionRecord} (hq : q ∈ getPool topics topic marks) :
    q.marks = marks := by
  unfold getPool at hq
  cases htq : alookup topics topic with
  | none => simp [htq, alookup] at hq
  | some tq =>
    cases hqs : alookup tq marks with
    | none => simp [htq, hqs] at hq
    | some qs =>
      simp [htq, hqs] at hq
      exact hWF (topic, tq) (alookup_mem htq) (marks, qs) (alookup_mem hqs) q hq

theorem generic_pool_provenance {topics : Bank} {marks : Int} {q : QuestionRecord}
    (hq : q ∈ generic_pool topics marks) :
    ∃ tp, tp ∈ topics ∧ tp.1 ≠ "Current Electricity" ∧
      q ∈ (alookup tp.2 marks).getD [] := by
  unfold generic_pool at hq
  rcases List.mem_flatMap.mp hq with ⟨tp, htp, hmem⟩
  by_cases hname : tp.1 ≠ "Current Electricity"
  · exact ⟨tp, htp, hname, by simpa [hname] using hmem⟩
  · simp [hname] at hmem

theorem generic_pool_marks {topics : Bank} (hWF : BankWF topics) {marks : Int}
    {q : QuestionRecord} (hq : q ∈ generic_pool topics marks) : q.marks = marks := by
  rcases generic_pool_provenance hq with ⟨tp, htp, _, hmem⟩
  cases hqs : alookup tp.2 marks with
  | none => simp [hqs] at hmem
  | some qs =>
    simp [hqs] at hmem
    exact hWF tp htp (marks, qs) (alookup_mem hqs) q hmem

theorem select_questions_ok_spec {S C : List QuestionRecord → Nat → List QuestionRecord}
    (hS : SampleOK S) (hC : ChoicesOK C) {l r : List QuestionRecord} {n : Nat}
    (h : select_questions S C l n = Except.ok r) :
    r.length = n ∧ ∀ x ∈ r, x ∈ l := by
  unfold select_questions at h
  by_cases hle : n ≤ l.length
  · simp [hle] at h
    subst h
    obtain ⟨hlen, hsub⟩ := hS l n hle
    exact ⟨hlen, fun x hx => hsub.subset hx⟩
  · cases l with
    | nil => simp at hle; simp [hle] at h
    | cons y ys =>
      have hle2 : ¬ n ≤ ys.length + 1 := by simpa using hle
      simp [hle2] at h
      subst h
      obtain ⟨hlen, hmem⟩ := hC (y :: ys) (n - (ys.length + 1)) (by simp)
      constructor
      · simp only [List.length_cons, List.length_append, hlen]
        omega
      · intro x hx
        rcases List.mem_cons.mp hx with hx | hx
        · simp [hx]
        · rcases List.mem_append.mp hx with hx | hx
          · exact List.mem_cons_of_mem _ hx
          · exact hmem x hx

theorem select_questions_ok_exists {S C : List QuestionRecord → Nat → List QuestionRecord}
    {l : List QuestionRecord} {n : Nat} (h : 0 < n → l ≠ []) :
    ∃ r, select_questions S C l n = Except.ok r := by
  unfold select_questions
  by_cases hle : n ≤ l.length
  · exact ⟨S l n, by simp [hle]⟩
  · have hn : 0 < n := by omega
    have hl : ¬ l.isEmpty := by
      simpa [List.isEmpty_iff] using h hn
    exact ⟨l ++ C l (n - l.length), by simp [hle, hl]⟩

theorem countMarks_append (a b : List QuestionRecord) (m : Int) :
    countMarks (a ++ b) m = countMarks a m + countMarks b m := by
  simp [countMarks, List.filter_append]

theorem countMarks_cons (q : QuestionRecord) (rest : List QuestionRecord) (m : Int) :
    countMarks (q :: rest) m = (if q.marks = m then 1 else 0) + countMarks rest m := by
  unfold countMarks
  by_cases h : q.marks = m
  · rw [if_pos h]
    have hb : (q.marks == m) = true := by simp [h]
    rw [List.filter_cons, if_pos hb, List.length_cons]
    omega
  · rw [if_neg h]
    have hb : ¬ ((q.marks == m) = true) := by simp [h]
    rw [List.filter_cons, if_neg hb]
    omega

theorem countMarks_const {r : List QuestionRecord} {m0 : Int}
    (h : ∀ q ∈ r, q.marks = m0) (m : Int) :
    countMarks r m = if m0 = m then r.length else 0 := by
  induction r with
  | nil => simp [countMarks]
  | cons q rest ih =>
    have hq : q.marks = m0 := h q (List.mem_cons_self q rest)
    have ihr := ih (fun x hx => h x (List.mem_cons_of_mem _ hx))
    rw [countMarks_cons, ihr, hq, List.length_cons]
    by_cases hm : m0 = m
    · rw [if_pos hm, if_pos hm, if_pos hm]
      omega
    · rw [if_neg hm, if_neg hm, if_neg hm]

/-- The number of questions of mark value `m` that one topic's quota entry
list requests through a draw that actually happens (line 91 requires the
mark value to be a key of `num_questions_per_type`). -/
def topicRequestedInner (nqt : List (Int × Nat)) (m : Int) :
    List (Int × Nat) → Nat
  | [] => 0
  | (marks, n) :: rest =>
    (if marks = m ∧ (alookup nqt marks).isSome then n else 0) +
      topicRequestedInner nqt m rest

/-- The total number of questions of mark value `m` requested by the
per-topic quota through draws that actually happen. -/
def topicRequested (nqt : List (Int × Nat)) (m : Int) :
    List (String × List (Int × Nat)) → Nat
  | [] => 0
  | (_, byMarks) :: rest =>
    topicRequestedInner nqt m byMarks + topicRequested nqt m rest

theorem topic_phase_inner_count {S C : List QuestionRecord → Nat → List QuestionRecord}
    (hS : SampleOK S) (hC : ChoicesOK C) {topics : Bank} (hWF : BankWF topics)
    {nqt : List (Int × Nat)} {topic : String} {byMarks : List (Int × Nat)}
    (hpool : ∀ p ∈ byMarks, (alookup nqt p.1).isSome → 0 < p.2 →
      getPool topics topic p.1 ≠ []) :
    ∃ sel, topic_phase_inner S C topics nqt topic byMarks = Except.ok sel ∧
      ∀ m, countMarks sel m = topicRequestedInner nqt m byMarks := by
  induction byMarks with
  | nil => exact ⟨[], rfl, fun m => by simp [countMarks, topicRequestedInner]⟩
  | cons p rest ih =>
    obtain ⟨marks, n⟩ := p
    obtain ⟨sel', hsel', hcount'⟩ :=
      ih (fun p hp hs hn => hpool p (List.mem_cons_of_mem _ hp) hs hn)
    by_cases hkey : (alookup nqt marks).isSome
    · have hne : 0 < n → getPool topics topic marks ≠ [] :=
        hpool (marks, n) (List.mem_cons_self _ _) hkey
      obtain ⟨r, hr⟩ := select_questions_ok_exists (S := S) (C := C) hne
      obtain ⟨hrlen, hrmem⟩ := select_questions_ok_spec hS hC hr
      have hrmarks : ∀ q ∈ r, q.marks = marks :=
        fun q hq => getPool_marks hWF (hrmem q hq)
      refine ⟨r ++ sel', ?_, ?_⟩
      · simp only [topic_phase_inner, if_pos hkey, hr, hsel']
        rfl
      · intro m
        rw [countMarks_append, hcount', countMarks_const hrmarks m, hrlen]
        simp [topicRequestedInner, hkey]
    · refine ⟨sel', ?_, ?_⟩
      · simp [topic_phase_inner, hkey, hsel']
      · intro m
        rw [hcount']
        simp [topicRequestedInner, hkey]

theorem topic_phase_count {S C : List QuestionRecord → Nat → List QuestionRecord}
    (hS : SampleOK S) (hC : ChoicesOK C) {topics : Bank} (hWF : BankWF topics)
    {nqt : List (Int × Nat)} {stq : List (String × List (Int × Nat))}
    (hpool : ∀ tp ∈ stq, ∀ p ∈ tp.2, (alookup nqt p.1).isSome → 0 < p.2 →
      getPool topics tp.1 p.1 ≠ []) :
    ∃ sel, topic_phase S C topics nqt stq = Except.ok sel ∧
      ∀ m, countMarks sel m = topicRequested nqt m stq := by
  induction stq with
  | nil => exact ⟨[], rfl, fun m => by simp [countMarks, topicRequested]⟩
  | cons tp rest ih =>
    obtain ⟨topic, byMarks⟩ := tp
    obtain ⟨sel', hsel', hcount'⟩ :=
      ih (fun tp htp => hpool tp (List.mem_cons_of_mem _ htp))
    obtain ⟨sel1, hsel1, hcount1⟩ :=
      topic_phase_inner_count hS hC hWF
        (hpool (topic, byMarks) (List.mem_cons_self _ _))
    refine ⟨sel1 ++ sel', ?_, ?_⟩
    · simp only [topic_phase, hsel1, hsel']
      rfl
    · intro m
      rw [countMarks_append, hcount1, hcount']
      simp [topicRequested]

theorem except_bind_ok {ε α β : Type} (a : α) (f : α → Except ε β) :
    (Except.ok a >>= f : Except ε β) = f a := rfl

theorem except_bind_err {ε α β : Type} (e : ε) (f : α → Except ε β) :
    ((Except.error e : Except ε α) >>= f) = Except.error e := rfl

theorem generic_phase_count {S C : List QuestionRecord → Nat → List QuestionRecord}
    (hS : SampleOK S) (hC : ChoicesOK C) {topics : Bank} (hWF : BankWF topics)
    {rem : List (Int × Int)}
    (hpool : ∀ p ∈ rem, 0 < p.2 → generic_pool topics p.1 ≠ [])
    (hnodup : (rem.map Prod.fst).Nodup) :
    ∃ sel2, generic_phase S C topics rem = Except.ok sel2 ∧
      (∀ p ∈ rem, countMarks sel2 p.1 = if 0 < p.2 then p.2.toNat else 0) ∧
      ∀ m, m ∉ rem.map Prod.fst → countMarks sel2 m = 0 := by
  induction rem with
  | nil => exact ⟨[], rfl, by simp, fun m _ => by simp [countMarks]⟩
  | cons p0 rest ih =>
    obtain ⟨m0, n0⟩ := p0
    have hnodup2 : (m0 :: rest.map Prod.fst).Nodup := by
      rw [List.map_cons] at hnodup
      exact hnodup
    have hm0 : m0 ∉ rest.map Prod.fst := (List.nodup_cons.mp hnodup2).1
    obtain ⟨sel2, hsel2, hcnt, hzero⟩ :=
      ih (fun p hp => hpool p (List.mem_cons_of_mem _ hp))
        (List.nodup_cons.mp hnodup2).2
    by_cases hn0 : 0 < n0
    · have hne : generic_pool topics m0 ≠ [] :=
        hpool (m0, n0) (List.mem_cons_self _ _) hn0
      obtain ⟨r, hr⟩ :=
        select_questions_ok_exists (S := S) (C := C) (n := n0.toNat) (fun _ => hne)
      obtain ⟨hrlen, hrmem⟩ := select_questions_ok_spec hS hC hr
      have hrmarks : ∀ q ∈ r, q.marks = m0 :=
        fun q hq => generic_pool_marks hWF (hrmem q hq)
      refine ⟨r ++ sel2, ?_, ?_, ?_⟩
      · simp only [generic_phase, if_pos hn0, hr, hsel2, except_bind_ok]
        rfl
      · intro p hp
        rcases List.mem_cons.mp hp with hp | hp
        · rw [hp]
          simp only [if_pos hn0]
          rw [countMarks_append, countMarks_const hrmarks m0, if_pos rfl, hrlen,
            hzero m0 hm0]
          rfl
        · have hne' : m0 ≠ p.1 := by
            intro habs
            exact hm0 (habs ▸ List.mem_map_of_mem Prod.fst hp)
          rw [countMarks_append, countMarks_const hrmarks p.1, if_neg hne',
            hcnt p hp, Nat.zero_add]
      · intro m hm
        have hm1 : m0 ≠ m := by
          intro habs
          exact hm (by simp [habs])
        have hm2 : m ∉ rest.map Prod.fst := fun habs => hm (by simp [habs])
        rw [countMarks_append, countMarks_const hrmarks m, if_neg hm1, hzero m hm2]
    · refine ⟨sel2, ?_, ?_, ?_⟩
      · simp only [generic_phase, if_neg hn0, hsel2]
      · intro p hp
        rcases List.mem_cons.mp hp with hp | hp
        · rw [hp]
          simp only [if_neg hn0]
          exact hzero m0 hm0
        · exact hcnt p hp
      · intro m hm
        exact hzero m (fun habs => hm (by simp [habs]))

/-- Claim C1: for every question bank satisfying the bank invariant, every
total quota and per-topic quota whose per-mark sums do not exceed the
corresponding totals, if every pool drawn from is non-empty whenever a
positive count is requested from it, then the selection produced by quota
reconciliation contains, for each mark value in the total quota, exactly the
requested total number of questions of that mark value — for every outcome
of the random draws. -/
theorem create_selection_quota_exact
    {S C : List QuestionRecord → Nat → List QuestionRecord}
    (hS : SampleOK S) (hC : ChoicesOK C) {topics : Bank} (hWF : BankWF topics)
    {nqt : List (Int × Nat)} {stq : List (String × List (Int × Nat))}
    (hnodup : (nqt.map Prod.fst).Nodup)
    (hquota : ∀ p ∈ nqt, topicRequested nqt p.1 stq ≤ p.2)
    (hpoolT : ∀ tp ∈ stq, ∀ p ∈ tp.2, (alookup nqt p.1).isSome → 0 < p.2 →
      getPool topics tp.1 p.1 ≠ [])
    (hpoolG : ∀ p ∈ nqt, topicRequested nqt p.1 stq < p.2 →
      generic_pool topics p.1 ≠ []) :
    ∃ sel, create_selection S C topics nqt stq = Except.ok sel ∧
      ∀ p ∈ nqt, countMarks sel p.1 = p.2 := by
  obtain ⟨sel1, hsel1, hcount1⟩ := topic_phase_count hS hC hWF hpoolT
  have hmemR : ∀ p ∈ nqt,
      (p.1, (p.2 : Int) - countMarks sel1 p.1) ∈
        remaining_questions_per_type nqt sel1 := by
    intro p hp
    unfold remaining_questions_per_type
    exact List.mem_map_of_mem _ hp
  have hkeys : (remaining_questions_per_type nqt sel1).map Prod.fst =
      nqt.map Prod.fst := by
    simp [remaining_questions_per_type, List.map_map]
  have hpoolR : ∀ q ∈ remaining_questions_per_type nqt sel1,
      0 < q.2 → generic_pool topics q.1 ≠ [] := by
    intro q hq hq2
    unfold remaining_questions_per_type at hq
    obtain ⟨p, hp, rfl⟩ := List.mem_map.mp hq
    have hT : countMarks sel1 p.1 = topicRequested nqt p.1 stq := hcount1 p.1
    rw [hT] at hq2
    have hlt : topicRequested nqt p.1 stq < p.2 := by omega
    exact hpoolG p hp hlt
  by_cases hany :
      (remaining_questions_per_type nqt sel1).any (fun p => 0 < p.2) = true
  · obtain ⟨sel2, hsel2, hcnt2, hzero2⟩ :=
      generic_phase_count hS hC hWF hpoolR
        (by rw [hkeys]; exact hnodup)
    refine ⟨sel1 ++ sel2, ?_, ?_⟩
    · simp only [create_selection, hsel1, except_bind_ok, hany, if_true, hsel2]
      rfl
    · intro p hp
      have hfp := hmemR p hp
      have h2 := hcnt2 _ hfp
      dsimp only at h2
      rw [hcount1 p.1] at h2
      have hle : topicRequested nqt p.1 stq ≤ p.2 := hquota p hp
      rw [countMarks_append, hcount1 p.1, h2]
      by_cases hpos : (0 : Int) < (p.2 : Int) - topicRequested nqt p.1 stq
      · rw [if_pos hpos]
        omega
      · rw [if_neg hpos]
        omega
  · refine ⟨sel1, ?_, ?_⟩
    · simp only [create_selection, hsel1, except_bind_ok]
      simp only [hany, if_false]
      simp [hany]
      rfl
    · intro p hp
      have hfalse : (remaining_questions_per_type nqt sel1).any
          (fun p => 0 < p.2) = false := by
        cases h : (remaining_questions_per_type nqt sel1).any (fun p => 0 < p.2) with
        | false => rfl
        | true => exact absurd h hany
      have hall := List.any_eq_false.mp hfalse _ (hmemR p hp)
      have hle : topicRequested nqt p.1 stq ≤ p.2 := hquota p hp
      have hT : countMarks sel1 p.1 = topicRequested nqt p.1 stq := hcount1 p.1
      simp at hall
      omega

/-- Concrete record used in witnesses and counterexamples. -/
def qOptics1 : QuestionRecord := ⟨"Define refraction.", none, [], 1⟩

/-- Concrete record used in witnesses and counterexamples. -/
def qOptics2 : QuestionRecord := ⟨"State the lens formula.", none, [], 2⟩

/-- Concrete record used in witnesses and counterexamples. -/
def qWaves1 : QuestionRecord := ⟨"Define frequency.", none, [], 1⟩

/-- Concrete record used in witnesses and counterexamples. -/
def qCE1 : QuestionRecord := ⟨"State the law of resistance.", none, [], 1⟩

/-- Concrete record with an image path, used in witnesses and
counterexamples. -/
def qImg2 : QuestionRecord := ⟨"Label the circuit.", some "circuit.png", [], 2⟩

/-- Concrete bank used in witnesses and counterexamples. -/
def bankA : Bank :=
  [("Optics", [(1, [qOptics1]), (2, [qOptics2])]),
   ("Waves", [(1, [qWaves1])]),
   ("Current Electricity", [(1, [qCE1])])]

/-- Witness for C1: at a concrete bank and quota the reconciliation yields
exactly the requested totals. -/
theorem create_selection_quota_exact_witness :
    ∃ sel, create_selection sampleFirst choicesFirst bankA [(1, 2), (2, 1)]
        [("Optics", [(1, 1)])] = Except.ok sel ∧
      ∀ p ∈ [((1 : Int), (2 : Nat)), (2, 1)], countMarks sel p.1 = p.2 :=
  create_selection_quota_exact sampleFirst_ok choicesFirst_ok
    (by unfold BankWF; decide) (by decide) (by decide) (by decide) (by decide)

/-- Claim C2: for a non-empty pool and a count exceeding the pool size, the
selection succeeds with exactly `n` elements: the whole pool first, then a
tail of `n - |pool|` pool members (repetitions allowed), so every pool
element appears at least once — for every outcome of the random draws. -/
theorem select_questions_exhaustion
    {S C : List QuestionRecord → Nat → List QuestionRecord} (hC : ChoicesOK C)
    {l : List QuestionRecord} {n : Nat} (hl : l ≠ []) (hn : l.length < n) :
    ∃ r, select_questions S C l n = Except.ok r ∧ r.length = n ∧
      (∀ x ∈ l, x ∈ r) ∧ (∀ x ∈ r, x ∈ l) ∧
      ∃ tail, r = l ++ tail ∧ tail.length = n - l.length ∧ ∀ x ∈ tail, x ∈ l := by
  have hle : ¬ n ≤ l.length := by omega
  have hno : ¬ l.isEmpty := by simpa [List.isEmpty_iff] using hl
  obtain ⟨hlen, hmem⟩ := hC l (n - l.length) hl
  refine ⟨l ++ C l (n - l.length), ?_, ?_, ?_, ?_, C l (n - l.length), rfl, hlen, hmem⟩
  · simp [select_questions, hle, hno]
  · rw [List.length_append, hlen]
    omega
  · intro x hx
    exact List.mem_append_left _ hx
  · intro x hx
    rcases List.mem_append.mp hx with hx | hx
    · exact hx
    · exact hmem x hx

/-- Witness for C2: a pool of one question, three requested. -/
theorem select_questions_exhaustion_witness :
    ∃ r, select_questions sampleFirst choicesFirst [qOptics1] 3 = Except.ok r ∧
      r.length = 3 ∧ (∀ x ∈ [qOptics1], x ∈ r) ∧ (∀ x ∈ r, x ∈ [qOptics1]) ∧
      ∃ tail, r = [qOptics1] ++ tail ∧ tail.length = 3 - [qOptics1].length ∧
        ∀ x ∈ tail, x ∈ [qOptics1] :=
  select_questions_exhaustion choicesFirst_ok (by decide) (by decide)

/-- Counterexample to claim C3 as stated: `random.sample` draws at distinct
positions, so a pool containing the same record twice (two identical bank
lines) can legally yield a result that is not pairwise distinct.  The
contract-satisfying sampler `sampleFirst` on the pool `[q, q]` with `n = 2`
returns `[q, q]`. -/
theorem select_questions_distinct_counterexample :
    ¬ (∀ (S C : List QuestionRecord → Nat → List QuestionRecord),
        SampleOK S → ChoicesOK C →
        ∀ (l : List QuestionRecord) (n : Nat) (r : List QuestionRecord),
          n ≤ l.length → select_questions S C l n = Except.ok r → r.Nodup) := by
  intro h
  have hnd := h sampleFirst choicesFirst sampleFirst_ok choicesFirst_ok
    [qOptics1, qOptics1] 2 [qOptics1, qOptics1] (by decide) rfl
  simp [List.nodup_cons] at hnd

/-- Claim C3 (amended): for `0 ≤ n ≤ |pool|` the selection succeeds with
exactly `n` elements, all members of the pool, drawn at distinct positions
(the result is a permutation of a sublist of the pool); when the pool has no
duplicate records, the returned elements are pairwise distinct. -/
theorem select_questions_sample_spec
    {S C : List QuestionRecord → Nat → List QuestionRecord} (hS : SampleOK S)
    {l : List QuestionRecord} {n : Nat} (hn : n ≤ l.length) :
    ∃ r, select_questions S C l n = Except.ok r ∧ r.length = n ∧
      r.Subperm l ∧ (∀ x ∈ r, x ∈ l) ∧ (l.Nodup → r.Nodup) := by
  obtain ⟨hlen, hsub⟩ := hS l n hn
  refine ⟨S l n, by simp [select_questions, hn], hlen, hsub, ?_, ?_⟩
  · intro x hx
    exact hsub.subset hx
  · intro hnd
    obtain ⟨t, hperm, hsl⟩ := hsub
    exact hperm.nodup_iff.mp (hsl.nodup hnd)

/-- Witness for C3 (amended): a duplicate-free pool of two questions, one
requested. -/
theorem select_questions_sample_spec_witness :
    ∃ r, select_questions sampleFirst choicesFirst [qOptics1, qWaves1] 1 =
        Except.ok r ∧ r.length = 1 ∧ r.Subperm [qOptics1, qWaves1] ∧
      (∀ x ∈ r, x ∈ [qOptics1, qWaves1]) ∧
      ([qOptics1, qWaves1].Nodup → r.Nodup) :=
  select_questions_sample_spec sampleFirst_ok (by decide)

/-- Counterexample to claim C4 as stated: a draw from the empty pool fails
with Python's built-in `IndexError` (raised by `random.choices` on an empty
population), not with a dedicated `EmptyPoolError` — the source defines no
such class.  The very same `IndexError` is what an unrelated failure (a
malformed bank line in `read_question_bank`) produces, so the error is a
generic one, not an empty-pool-specific one. -/
theorem select_questions_empty_counterexample :
    select_questions sampleFirst choicesFirst [] 1 =
        Except.error PyError.indexError ∧
      parse_line "malformed" = Except.error PyError.indexError := by
  constructor
  · rfl
  · rfl

/-- Claim C4 (amended): a draw of a positive count from the empty pool
fails — it raises the generic `IndexError` from `random.choices` rather
than returning a result (the source has no dedicated `EmptyPoolError`). -/
theorem select_questions_empty_raises
    (S C : List QuestionRecord → Nat → List QuestionRecord) {n : Nat}
    (hn : 0 < n) :
    select_questions S C [] n = Except.error PyError.indexError := by
  have hle : ¬ n ≤ ([] : List QuestionRecord).length := by
    simp only [List.length_nil]
    omega
  unfold select_questions
  rw [if_neg hle]
  rfl

/-- Witness for C4 (amended) at `n = 1`. -/
theorem select_questions_empty_raises_witness :
    select_questions sampleFirst choicesFirst [] 1 =
      Except.error PyError.indexError :=
  select_questions_empty_raises sampleFirst choicesFirst (by decide)

theorem except_bind_ok_inv {ε α β : Type} {e : Except ε α} {f : α → Except ε β}
    {b : β} (h : (e >>= f) = Except.ok b) :
    ∃ a, e = Except.ok a ∧ f a = Except.ok b := by
  cases e with
  | error x => exact Except.noConfusion h
  | ok a => exact ⟨a, rfl, h⟩

theorem generic_phase_mem_pool {S C : List QuestionRecord → Nat → List QuestionRecord}
    (hS : SampleOK S) (hC : ChoicesOK C) {topics : Bank} {rem : List (Int × Int)}
    {sel2 : List QuestionRecord} (h : generic_phase S C topics rem = Except.ok sel2) :
    ∀ q ∈ sel2, ∃ m, q ∈ generic_pool topics m := by
  induction rem generalizing sel2 with
  | nil =>
    intro q hq
    unfold generic_phase at h
    cases h
    simp at hq
  | cons p rest ih =>
    obtain ⟨m0, n0⟩ := p
    unfold generic_phase at h
    by_cases hn0 : 0 < n0
    · rw [if_pos hn0] at h
      obtain ⟨r, hr, h2⟩ := except_bind_ok_inv h
      obtain ⟨rs, hrs, h3⟩ := except_bind_ok_inv h2
      have hins : sel2 = r ++ rs := by
        cases h3
        rfl
      subst hins
      intro q hq
      rcases List.mem_append.mp hq with hq | hq
      · exact ⟨m0, (select_questions_ok_spec hS hC hr).2 q hq⟩
      · exact ih hrs q hq
    · rw [if_neg hn0] at h
      exact ih h

/-- Claim C5: a question drawn in the generic (non-topic-specific)
reconciliation step always originates from a topic other than the excluded
`"Current Electricity"`: every selected question of the generic phase lies
in the generic pool of some mark value, and generic pools are built only
from non-excluded topics — in particular an entry for the excluded topic
contributes nothing to any generic pool. -/
theorem generic_phase_excludes_current_electricity
    {S C : List QuestionRecord → Nat → List QuestionRecord}
    (hS : SampleOK S) (hC : ChoicesOK C) {topics : Bank} {rem : List (Int × Int)}
    {sel2 : List QuestionRecord}
    (h : generic_phase S C topics rem = Except.ok sel2) :
    (∀ q ∈ sel2, ∃ m tp, tp ∈ topics ∧ tp.1 ≠ "Current Electricity" ∧
        q ∈ (alookup tp.2 m).getD []) ∧
      ∀ (tq : List (Int × List QuestionRecord)) (m : Int),
        generic_pool (("Current Electricity", tq) :: topics) m =
          generic_pool topics m := by
  constructor
  · intro q hq
    obtain ⟨m, hm⟩ := generic_phase_mem_pool hS hC h q hq
    obtain ⟨tp, htp, hne, hmem⟩ := generic_pool_provenance hm
    exact ⟨m, tp, htp, hne, hmem⟩
  · intro tq m
    simp [generic_pool]

/-- Witness for C5 at a concrete bank: the generic phase draws the two
1-mark questions from `Optics` and `Waves`, never touching
`Current Electricity`. -/
theorem generic_phase_excludes_current_electricity_witness :
    (∀ q ∈ [qOptics1, qWaves1], ∃ m tp, tp ∈ bankA ∧
        tp.1 ≠ "Current Electricity" ∧ q ∈ (alookup tp.2 m).getD []) ∧
      ∀ (tq : List (Int × List QuestionRecord)) (m : Int),
        generic_pool (("Current Electricity", tq) :: bankA) m =
          generic_pool bankA m :=
  @generic_phase_excludes_current_electricity sampleFirst choicesFirst
    sampleFirst_ok choicesFirst_ok bankA [(1, 2)] [qOptics1, qWaves1] rfl

theorem marksKeys_cons (ks : List Int) (q : QuestionRecord)
    (rest : List QuestionRecord) :
    marksKeys ks (q :: rest) =
      if q.marks ∈ ks then marksKeys ks rest
      else q.marks :: marksKeys (q.marks :: ks) rest := rfl

theorem groupInsert_keys_of_mem {acc : List (Int × List QuestionRecord)}
    {q : QuestionRecord} (h : q.marks ∈ acc.map Prod.fst) :
    (groupInsert acc q).map Prod.fst = acc.map Prod.fst := by
  induction acc with
  | nil => simp at h
  | cons p rest ih =>
    obtain ⟨m, qs⟩ := p
    by_cases hm : m = q.marks
    · simp [groupInsert, hm]
    · have h2 : q.marks ∈ rest.map Prod.fst := by
        rw [List.map_cons] at h
        rcases List.mem_cons.mp h with h1 | h1
        · exact absurd h1.symm hm
        · exact h1
      simp [groupInsert, hm, ih h2]

theorem groupInsert_of_mem {acc : List (Int × List QuestionRecord)}
    {q : QuestionRecord} (hnd : (acc.map Prod.fst).Nodup)
    (h : q.marks ∈ acc.map Prod.fst) :
    groupInsert acc q =
      acc.map (fun p => if p.1 = q.marks then (p.1, p.2 ++ [q]) else p) := by
  induction acc with
  | nil => simp at h
  | cons p rest ih =>
    obtain ⟨m, qs⟩ := p
    rw [List.map_cons] at hnd
    have hm0 : m ∉ rest.map Prod.fst := (List.nodup_cons.mp hnd).1
    have hnd2 : (rest.map Prod.fst).Nodup := (List.nodup_cons.mp hnd).2
    by_cases hm : m = q.marks
    · subst hm
      have hrest : ∀ p ∈ rest,
          (if p.1 = q.marks then (p.1, p.2 ++ [q]) else p) = p := by
        intro p hp
        have hne : p.1 ≠ q.marks := by
          intro habs
          exact hm0 (habs ▸ List.mem_map_of_mem Prod.fst hp)
        simp [hne]
      simp only [groupInsert, List.map_cons, if_pos rfl]
      rw [List.map_congr_left hrest]
      simp
    · have h2 : q.marks ∈ rest.map Prod.fst := by
        rw [List.map_cons] at h
        rcases List.mem_cons.mp h with h1 | h1
        · exact absurd h1.symm hm
        · exact h1
      have hne : ¬ ((m, qs).1 = q.marks) := hm
      simp only [groupInsert, if_neg hm, List.map_cons, if_neg hne]
      rw [ih hnd2 h2]

theorem groupInsert_of_not_mem {acc : List (Int × List QuestionRecord)}
    {q : QuestionRecord} (h : q.marks ∉ acc.map Prod.fst) :
    groupInsert acc q = acc ++ [(q.marks, [q])] := by
  induction acc with
  | nil => simp [groupInsert]
  | cons p rest ih =>
    obtain ⟨m, qs⟩ := p
    have hm : m ≠ q.marks := by
      intro habs
      exact h (by simp [habs])
    have h2 : q.marks ∉ rest.map Prod.fst := by
      intro habs
      exact h (by simp [habs])
    simp [groupInsert, hm, ih h2]

theorem marksKeys_not_mem {ks : List Int} {sel : List QuestionRecord} {m : Int}
    (h : m ∈ marksKeys ks sel) : m ∉ ks := by
  induction sel generalizing ks with
  | nil => simp [marksKeys] at h
  | cons q rest ih =>
    rw [marksKeys_cons] at h
    by_cases hq : q.marks ∈ ks
    · rw [if_pos hq] at h
      exact ih h
    · rw [if_neg hq] at h
      rcases List.mem_cons.mp h with h1 | h1
      · subst h1
        exact hq
      · intro habs
        exact ih h1 (List.mem_cons_of_mem _ habs)

theorem marksKeys_congr {ks₁ ks₂ : List Int} {sel : List QuestionRecord}
    (h : ∀ x, x ∈ ks₁ ↔ x ∈ ks₂) : marksKeys ks₁ sel = marksKeys ks₂ sel := by
  induction sel generalizing ks₁ ks₂ with
  | nil => rfl
  | cons q rest ih =>
    rw [marksKeys_cons, marksKeys_cons]
    by_cases hq : q.marks ∈ ks₁
    · rw [if_pos hq, if_pos ((h q.marks).mp hq)]
      exact ih h
    · rw [if_neg hq, if_neg (fun habs => hq ((h q.marks).mpr habs))]
      have h2 : ∀ x, x ∈ q.marks :: ks₁ ↔ x ∈ q.marks :: ks₂ := by
        intro x
        simp [h x]
      rw [ih h2]

theorem filter_cons_of_ne {q : QuestionRecord} {m : Int} (h : q.marks ≠ m)
    (rest : List QuestionRecord) :
    (q :: rest).filter (fun x => x.marks == m) =
      rest.filter (fun x => x.marks == m) := by
  rw [List.filter_cons]
  have hbeq : ¬ ((q.marks == m) = true) := by simp [h]
  rw [if_neg hbeq]

theorem filter_cons_self {q : QuestionRecord} {m : Int} (h : q.marks = m)
    (rest : List QuestionRecord) :
    (q :: rest).filter (fun x => x.marks == m) =
      q :: rest.filter (fun x => x.marks == m) := by
  rw [List.filter_cons]
  have hbeq : (q.marks == m) = true := by simp [h]
  rw [if_pos hbeq]

theorem group_loop_spec (sel : List QuestionRecord) :
    ∀ (acc : List (Int × List QuestionRecord)), (acc.map Prod.fst).Nodup →
    group_loop acc sel =
      acc.map (fun p => (p.1, p.2 ++ sel.filter (fun q => q.marks == p.1))) ++
        (marksKeys (acc.map Prod.fst) sel).map
          (fun m => (m, sel.filter (fun q => q.marks == m))) := by
  induction sel with
  | nil =>
    intro acc hnd
    simp [group_loop, marksKeys]
  | cons q rest ih =>
    intro acc hnd
    by_cases hin : q.marks ∈ acc.map Prod.fst
    · have hstep : group_loop acc (q :: rest) =
          group_loop (groupInsert acc q) rest := rfl
      rw [hstep, ih (groupInsert acc q)
        (by rw [groupInsert_keys_of_mem hin]; exact hnd)]
      rw [groupInsert_keys_of_mem hin, groupInsert_of_mem hnd hin, List.map_map]
      rw [marksKeys_cons, if_pos hin]
      congr 1
      · apply List.map_congr_left
        intro p hp
        by_cases hpm : p.1 = q.marks
        · simp only [Function.comp, if_pos hpm]
          rw [filter_cons_self hpm.symm]
          simp [List.append_assoc]
        · simp only [Function.comp, if_neg hpm]
          rw [filter_cons_of_ne (fun habs => hpm habs.symm)]
      · apply List.map_congr_left
        intro m hm
        have hne : q.marks ≠ m := by
          intro habs
          exact (marksKeys_not_mem hm) (habs ▸ hin)
        rw [filter_cons_of_ne hne]
    · have hndA : ((acc ++ [(q.marks, [q])]).map Prod.fst).Nodup := by
        rw [List.map_append]
        refine List.Nodup.append hnd (by simp) ?_
        intro a ha hb
        simp at hb
        subst hb
        exact hin ha
      have hstep : group_loop acc (q :: rest) =
          group_loop (acc ++ [(q.marks, [q])]) rest := by
        show group_loop (groupInsert acc q) rest = _
        rw [groupInsert_of_not_mem hin]
      rw [hstep, ih _ hndA]
      have hKmap : ((acc ++ [(q.marks, [q])]).map Prod.fst) =
          acc.map Prod.fst ++ [q.marks] := by simp
      rw [hKmap]
      have hcongr : marksKeys (acc.map Prod.fst ++ [q.marks]) rest =
          marksKeys (q.marks :: acc.map Prod.fst) rest := by
        apply marksKeys_congr
        intro x
        simp [or_comm]
      rw [hcongr, List.map_append, List.append_assoc, marksKeys_cons, if_neg hin]
      congr 1
      · apply List.map_congr_left
        intro p hp
        have hpm : q.marks ≠ p.1 := by
          intro habs
          exact hin (habs ▸ List.mem_map_of_mem Prod.fst hp)
        rw [filter_cons_of_ne hpm]
      · rw [List.map_singleton, List.singleton_append, List.map_cons]
        congr 1
        · dsimp only
          rw [filter_cons_self rfl, List.singleton_append]
        · apply List.map_congr_left
          intro m hm
          have hne : q.marks ≠ m := by
            intro habs
            exact (marksKeys_not_mem hm) (by simp [habs])
          rw [filter_cons_of_ne hne]

/-- The grouping of lines 111-116 equals: one entry per distinct mark value
in first-occurrence order, whose list is the selection filtered to that mark
value in selection order. -/
theorem questions_by_marks_spec (sel : List QuestionRecord) :
    questions_by_marks sel =
      (groupKeys sel).map (fun m => (m, sel.filter (fun q => q.marks == m))) := by
  have h := group_loop_spec sel [] (by simp)
  simpa [questions_by_marks, groupKeys] using h

/-- The titles of the level-1 section headings of a rendered document, in
order. -/
def docSections (doc : List DocItem) : List String :=
  doc.filterMap (fun d =>
    match d with
    | DocItem.heading t 1 => some t
    | _ => none)

theorem docSections_append (a b : List DocItem) :
    docSections (a ++ b) = docSections a ++ docSections b := by
  simp [docSections]

theorem render_question_ok_shape {resolve : String → Bool} {m : Int}
    {q : QuestionRecord} {d : List DocItem}
    (h : render_question resolve m q = Except.ok d) :
    ∃ imgs, (∀ x ∈ imgs, ∃ p, x = DocItem.picture p) ∧
      d = DocItem.paragraph ("Question: " ++ q.text) ::
        (if m == 1 && !q.options.isEmpty then
          q.options.enum.map (fun p => DocItem.bullet (optionLabel p.1 p.2))
        else []) ++ imgs := by
  cases hpath : q.imagePath with
  | none =>
    unfold render_question at h
    rw [hpath] at h
    cases h
    exact ⟨[], by simp, rfl⟩
  | some p =>
    unfold render_question at h
    rw [hpath] at h
    dsimp only at h
    by_cases hemp : p.data.isEmpty
    · rw [if_pos hemp] at h
      cases h
      exact ⟨[], by simp, rfl⟩
    · rw [if_neg hemp] at h
      by_cases hres : resolve p
      · rw [if_pos hres] at h
        cases h
        refine ⟨[DocItem.picture p], ?_, rfl⟩
        intro x hx
        rw [List.mem_singleton] at hx
        exact ⟨p, hx⟩
      · rw [if_neg hres] at h
        exact Except.noConfusion h

theorem render_question_sections {resolve : String → Bool} {m : Int}
    {q : QuestionRecord} {d : List DocItem}
    (h : render_question resolve m q = Except.ok d) : docSections d = [] := by
  obtain ⟨imgs, himgs, hd⟩ := render_question_ok_shape h
  subst hd
  unfold docSections
  rw [List.filterMap_eq_nil_iff]
  intro x hx
  rcases List.mem_append.mp hx with h1 | h1
  · rcases List.mem_cons.mp h1 with h2 | h2
    · subst h2
      rfl
    · by_cases hopt : (m == 1 && !q.options.isEmpty) = true
      · rw [if_pos hopt] at h2
        obtain ⟨p, hp, hb⟩ := List.mem_map.mp h2
        subst hb
        rfl
      · rw [if_neg hopt] at h2
        simp at h2
  · obtain ⟨p, hp⟩ := himgs x h1
    subst hp
    rfl

theorem render_section_questions_sections {resolve : String → Bool} {m : Int}
    {qs : List QuestionRecord} {d : List DocItem}
    (h : render_section_questions resolve m qs = Except.ok d) :
    docSections d = [] := by
  induction qs generalizing d with
  | nil =>
    cases h
    rfl
  | cons q rest ih =>
    unfold render_section_questions at h
    obtain ⟨d1, hd1, h2⟩ := except_bind_ok_inv h
    obtain ⟨ds, hds, h3⟩ := except_bind_ok_inv h2
    cases h3
    rw [docSections_append, render_question_sections hd1, ih hds]
    rfl

theorem render_groups_sections {resolve : String → Bool}
    {gs : List (Int × List QuestionRecord)} {body : List DocItem}
    (h : render_groups resolve gs = Except.ok body) :
    docSections body = gs.map (fun g => toString g.1 ++ "-Mark Questions") := by
  induction gs generalizing body with
  | nil =>
    cases h
    rfl
  | cons g rest ih =>
    obtain ⟨m, qs⟩ := g
    unfold render_groups at h
    obtain ⟨d, hd, h2⟩ := except_bind_ok_inv h
    obtain ⟨ds, hds, h3⟩ := except_bind_ok_inv h2
    cases h3
    show docSections (DocItem.heading (toString m ++ "-Mark Questions") 1 :: (d ++ ds)) = _
    have hcons : docSections (DocItem.heading (toString m ++ "-Mark Questions") 1 :: (d ++ ds)) =
        (toString m ++ "-Mark Questions") :: docSections (d ++ ds) := rfl
    rw [hcons, docSections_append, render_section_questions_sections hd, ih hds]
    rfl

/-- Counterexample to claim C6 as stated: the rendering loop (line 118)
iterates the grouping dict in key-insertion order, not in ascending mark
order.  With total quota `{1: 1, 2: 1}` and a per-topic request for one
2-mark `Optics` question, the 2-mark section is rendered before the 1-mark
section. -/
theorem create_question_paper_order_counterexample :
    (create_question_paper sampleFirst choicesFirst (fun _ => true) bankA
        [(1, 1), (2, 1)] [("Optics", [(2, 1)])]).map docSections =
      Except.ok ["2-Mark Questions", "1-Mark Questions"] ∧
      ["2-Mark Questions", "1-Mark Questions"] ≠
        ["1-Mark Questions", "2-Mark Questions"] := by
  constructor
  · rfl
  · decide

/-- Claim C6 (amended): the rendered document is the title heading followed
by one section per distinct mark value of the selection in order of first
appearance in the selection (not necessarily ascending); within each
mark-value section, questions appear in insertion order (the selection
order, hence topic-specific selections before generic-pool selections). -/
theorem create_document_structure {resolve : String → Bool}
    {sel : List QuestionRecord} {doc : List DocItem}
    (h : create_document resolve sel = Except.ok doc) :
    (∃ body, doc = DocItem.heading "Question Paper" 0 :: body) ∧
      docSections doc =
        (groupKeys sel).map (fun m => toString m ++ "-Mark Questions") ∧
      questions_by_marks sel =
        (groupKeys sel).map (fun m => (m, sel.filter (fun q => q.marks == m))) := by
  unfold create_document at h
  obtain ⟨body, hbody, h2⟩ := except_bind_ok_inv h
  cases h2
  refine ⟨⟨body, rfl⟩, ?_, questions_by_marks_spec sel⟩
  have hb := render_groups_sections hbody
  rw [questions_by_marks_spec sel, List.map_map] at hb
  have hshow : docSections (DocItem.heading "Question Paper" 0 :: body) =
      docSections body := rfl
  rw [hshow, hb]
  rfl

/-- Witness for C6 (amended) on a concrete one-question selection. -/
theorem create_document_structure_witness :
    (∃ body, [DocItem.heading "Question Paper" 0,
        DocItem.heading "1-Mark Questions" 1,
        DocItem.paragraph "Question: Define refraction."] =
          DocItem.heading "Question Paper" 0 :: body) ∧
      docSections [DocItem.heading "Question Paper" 0,
        DocItem.heading "1-Mark Questions" 1,
        DocItem.paragraph "Question: Define refraction."] =
        (groupKeys [qOptics1]).map (fun m => toString m ++ "-Mark Questions") ∧
      questions_by_marks [qOptics1] =
        (groupKeys [qOptics1]).map
          (fun m => (m, [qOptics1].filter (fun q => q.marks == m))) :=
  @create_document_structure (fun _ => true) [qOptics1]
    [DocItem.heading "Question Paper" 0, DocItem.heading "1-Mark Questions" 1,
     DocItem.paragraph "Question: Define refraction."] rfl

/-- Counterexample to claim C7 as stated: line 91 guards every per-topic
draw with `if marks in num_questions_per_type`, so a per-topic entry whose
mark value is absent from the total quota is skipped.  With total quota
`{1: 1}` and a per-topic request for one 2-mark `Optics` question, the
topic phase draws nothing, although the 2-mark pool is non-empty and the
draw would have produced a question. -/
theorem topic_phase_skips_counterexample :
    topic_phase sampleFirst choicesFirst bankA [(1, 1)]
        [("Optics", [(2, 1)])] = Except.ok [] ∧
      getPool bankA "Optics" 2 = [qOptics2] ∧
      select_questions sampleFirst choicesFirst (getPool bankA "Optics" 2) 1 =
        Except.ok [qOptics2] :=
  ⟨rfl, rfl, rfl⟩

theorem topic_phase_inner_draw
    {S C : List QuestionRecord → Nat → List QuestionRecord} {topics : Bank}
    {nqt : List (Int × Nat)} {topic : String} {byMarks : List (Int × Nat)}
    {sel : List QuestionRecord}
    (h : topic_phase_inner S C topics nqt topic byMarks = Except.ok sel)
    {m : Int} {n : Nat} (hmem : (m, n) ∈ byMarks)
    (hkey : (alookup nqt m).isSome) :
    ∃ r u v, select_questions S C (getPool topics topic m) n = Except.ok r ∧
      sel = u ++ r ++ v := by
  induction byMarks generalizing sel with
  | nil => simp at hmem
  | cons p rest ih =>
    obtain ⟨m0, n0⟩ := p
    unfold topic_phase_inner at h
    by_cases hk0 : (alookup nqt m0).isSome
    · rw [if_pos hk0] at h
      obtain ⟨r0, hr0, h2⟩ := except_bind_ok_inv h
      obtain ⟨rs, hrs, h3⟩ := except_bind_ok_inv h2
      cases h3
      rcases List.mem_cons.mp hmem with h1 | h1
      · cases h1
        exact ⟨r0, [], rs, hr0, by simp⟩
      · obtain ⟨r, u, v, hsel, hdec⟩ := ih hrs h1
        exact ⟨r, r0 ++ u, v, hsel, by rw [hdec]; simp [List.append_assoc]⟩
    · rw [if_neg hk0] at h
      rcases List.mem_cons.mp hmem with h1 | h1
      · cases h1
        exact absurd hkey hk0
      · exact ih h h1

/-- Claim C7 (amended): for every topic and every mark value present in the
per-topic quota with some requested count, *provided the mark value also
appears in the total-per-mark quota* (the guard of line 91), the topic
phase performs the draw `select(bank[topic][mark], requestedCount)` and its
result appears contiguously in the accumulated selection.  Entries whose
mark value is absent from the total quota are skipped (see the
counterexample). -/
theorem topic_phase_draw
    {S C : List QuestionRecord → Nat → List QuestionRecord} {topics : Bank}
    {nqt : List (Int × Nat)} {stq : List (String × List (Int × Nat))}
    {sel : List QuestionRecord}
    (h : topic_phase S C topics nqt stq = Except.ok sel)
    {t : String} {byMarks : List (Int × Nat)} (ht : (t, byMarks) ∈ stq)
    {m : Int} {n : Nat} (hmem : (m, n) ∈ byMarks)
    (hkey : (alookup nqt m).isSome) :
    ∃ r u v, select_questions S C (getPool topics t m) n = Except.ok r ∧
      sel = u ++ r ++ v := by
  induction stq generalizing sel with
  | nil => simp at ht
  | cons tp rest ih =>
    obtain ⟨t0, bm0⟩ := tp
    unfold topic_phase at h
    obtain ⟨r0, hr0, h2⟩ := except_bind_ok_inv h
    obtain ⟨rs, hrs, h3⟩ := except_bind_ok_inv h2
    cases h3
    rcases List.mem_cons.mp ht with h1 | h1
    · cases h1
      obtain ⟨r, u, v, hsel, hdec⟩ := topic_phase_inner_draw hr0 hmem hkey
      exact ⟨r, u, v ++ rs, hsel, by rw [hdec]; simp [List.append_assoc]⟩
    · obtain ⟨r, u, v, hsel, hdec⟩ := ih hrs h1
      exact ⟨r, r0 ++ u, v, hsel, by rw [hdec]; simp [List.append_assoc]⟩

/-- Witness for C7 (amended): a requested 1-mark `Optics` draw whose mark
value is in the total quota is performed and lands in the selection. -/
theorem topic_phase_draw_witness :
    ∃ r u v, select_questions sampleFirst choicesFirst
        (getPool bankA "Optics" 1) 1 = Except.ok r ∧
      [qOptics1] = u ++ r ++ v :=
  @topic_phase_draw sampleFirst choicesFirst bankA [(1, 2)]
    [("Optics", [(1, 1)])] [qOptics1] rfl "Optics" [(1, 1)] (by decide)
    1 1 (by decide) (by decide)

/-- Concrete bank whose only question carries an image path. -/
def bankC : Bank := [("Mechanics", [(2, [qImg2])])]

/-- Counterexample to claim C8 as stated: neither `add_image_to_document`
(lines 20-27) nor its caller (lines 125-126) catches anything, so an
unresolvable image path raises `FileNotFoundError` out of the rendering
loop, aborting `create_question_paper` before `doc.save` — rendering of the
remaining questions does not complete and no document is produced. -/
theorem create_question_paper_asset_counterexample :
    create_question_paper sampleFirst choicesFirst (fun _ => false) bankC
        [(2, 1)] [] = Except.error (PyError.fileNotFound "circuit.png") := rfl

theorem render_question_resolves {resolve : String → Bool} {m : Int}
    {q : QuestionRecord} {d : List DocItem}
    (h : render_question resolve m q = Except.ok d) :
    ∀ p, q.imagePath = some p → p.data.isEmpty = false → resolve p = true := by
  intro p hp hemp
  unfold render_question at h
  rw [hp] at h
  dsimp only at h
  rw [if_neg (by simp [hemp])] at h
  by_cases hres : resolve p
  · exact hres
  · rw [if_neg hres] at h
    exact Except.noConfusion h

theorem render_section_questions_resolves {resolve : String → Bool} {m : Int}
    {qs : List QuestionRecord} {d : List DocItem}
    (h : render_section_questions resolve m qs = Except.ok d) :
    ∀ q ∈ qs, ∀ p, q.imagePath = some p → p.data.isEmpty = false →
      resolve p = true := by
  induction qs generalizing d with
  | nil => simp
  | cons x rest ih =>
    unfold render_section_questions at h
    obtain ⟨d1, hd1, h2⟩ := except_bind_ok_inv h
    obtain ⟨ds, hds, h3⟩ := except_bind_ok_inv h2
    intro q hq
    rcases List.mem_cons.mp hq with h1 | h1
    · subst h1
      exact render_question_resolves hd1
    · exact ih hds q h1

theorem render_groups_resolves {resolve : String → Bool}
    {gs : List (Int × List QuestionRecord)} {body : List DocItem}
    (h : render_groups resolve gs = Except.ok body) :
    ∀ g ∈ gs, ∀ q ∈ g.2, ∀ p, q.imagePath = some p →
      p.data.isEmpty = false → resolve p = true := by
  induction gs generalizing body with
  | nil => simp
  | cons g0 rest ih =>
    obtain ⟨m, qs⟩ := g0
    unfold render_groups at h
    obtain ⟨d, hd, h2⟩ := except_bind_ok_inv h
    obtain ⟨ds, hds, h3⟩ := except_bind_ok_inv h2
    intro g hg
    rcases List.mem_cons.mp hg with h1 | h1
    · subst h1
      exact render_section_questions_resolves hd
    · exact ih hds g h1

theorem marksKeys_covers (q : QuestionRecord) :
    ∀ (sel : List QuestionRecord) (ks : List Int), q ∈ sel →
      q.marks ∈ ks ∨ q.marks ∈ marksKeys ks sel := by
  intro sel
  induction sel with
  | nil =>
    intro ks hq
    simp at hq
  | cons x rest ih =>
    intro ks hq
    rcases List.mem_cons.mp hq with h1 | h1
    · subst h1
      by_cases hx : q.marks ∈ ks
      · exact Or.inl hx
      · rw [marksKeys_cons, if_neg hx]
        exact Or.inr (List.mem_cons_self _ _)
    · by_cases hx : x.marks ∈ ks
      · rw [marksKeys_cons, if_pos hx]
        exact ih ks h1
      · rw [marksKeys_cons, if_neg hx]
        rcases ih (x.marks :: ks) h1 with h2 | h2
        · rcases List.mem_cons.mp h2 with h3 | h3
          · exact Or.inr (h3 ▸ List.mem_cons_self _ _)
          · exact Or.inl h3
        · exact Or.inr (List.mem_cons_of_mem _ h2)

theorem groupKeys_mem {sel : List QuestionRecord} {q : QuestionRecord}
    (hq : q ∈ sel) : q.marks ∈ groupKeys sel := by
  rcases marksKeys_covers q sel [] hq with h | h
  · simp at h
  · exact h

/-- Claim C8 (amended): an unresolvable non-empty image path makes the
renderer fail — `doc.add_picture` raises and nothing catches it — so the
render succeeds only when every selected question's non-empty image path
resolves.  (The error escaping the rendering boundary is exhibited by the
counterexample.) -/
theorem create_document_requires_assets {resolve : String → Bool}
    {sel : List QuestionRecord} {doc : List DocItem}
    (h : create_document resolve sel = Except.ok doc) :
    ∀ q ∈ sel, ∀ p, q.imagePath = some p → p.data.isEmpty = false →
      resolve p = true := by
  unfold create_document at h
  obtain ⟨body, hbody, h2⟩ := except_bind_ok_inv h
  intro q hq
  have hkey : q.marks ∈ groupKeys sel := groupKeys_mem hq
  have hgmem : (q.marks, sel.filter (fun x => x.marks == q.marks)) ∈
      questions_by_marks sel := by
    rw [questions_by_marks_spec]
    exact List.mem_map_of_mem _ hkey
  have hqf : q ∈ sel.filter (fun x => x.marks == q.marks) := by
    rw [List.mem_filter]
    exact ⟨hq, by simp⟩
  exact render_groups_resolves hbody _ hgmem q hqf

/-- Witness for C8 (amended): with every asset resolvable the render of an
image-bearing question succeeds, and the theorem applies to it at the
concrete question `qImg2` and its path. -/
theorem create_document_requires_assets_witness :
    (fun (_ : String) => true) "circuit.png" = true :=
  @create_document_requires_assets (fun _ => true) [qImg2]
    [DocItem.heading "Question Paper" 0, DocItem.heading "2-Mark Questions" 1,
     DocItem.paragraph "Question: Label the circuit.",
     DocItem.picture "circuit.png"] rfl
    qImg2 (by decide) "circuit.png" rfl (by decide)

theorem topic_phase_inner_st_frame
    (S C : List QuestionRecord → Nat → List QuestionRecord) (b : Bank)
    (nqt : List (Int × Nat)) (topic : String) :
    ∀ byMarks, topic_phase_inner_st S C b nqt topic byMarks =
      (b, topic_phase_inner S C b nqt topic byMarks) := by
  intro byMarks
  induction byMarks with
  | nil => rfl
  | cons p rest ih =>
    obtain ⟨m, n⟩ := p
    by_cases hk : (alookup nqt m).isSome
    · cases hsel : select_questions S C (getPool b topic m) n with
      | error e =>
        simp [topic_phase_inner_st, topic_phase_inner, bank_read_pool, hk,
          hsel, except_bind_err]
      | ok r =>
        cases hrest : topic_phase_inner S C b nqt topic rest with
        | error e =>
          simp [topic_phase_inner_st, topic_phase_inner, bank_read_pool, hk,
            hsel, ih, hrest, except_bind_ok, except_bind_err]
        | ok rs =>
          simp [topic_phase_inner_st, topic_phase_inner, bank_read_pool, hk,
            hsel, ih, hrest, except_bind_ok]
    · simp [topic_phase_inner_st, topic_phase_inner, hk, ih]

theorem topic_phase_st_frame
    (S C : List QuestionRecord → Nat → List QuestionRecord) (b : Bank)
    (nqt : List (Int × Nat)) :
    ∀ stq, topic_phase_st S C b nqt stq =
      (b, topic_phase S C b nqt stq) := by
  intro stq
  induction stq with
  | nil => rfl
  | cons tp rest ih =>
    obtain ⟨topic, byMarks⟩ := tp
    cases hinner : topic_phase_inner S C b nqt topic byMarks with
    | error e =>
      simp [topic_phase_st, topic_phase, topic_phase_inner_st_frame, hinner,
        except_bind_err]
    | ok r =>
      cases hrest : topic_phase S C b nqt rest with
      | error e =>
        simp [topic_phase_st, topic_phase, topic_phase_inner_st_frame, hinner,
          ih, hrest, except_bind_ok, except_bind_err]
      | ok rs =>
        simp [topic_phase_st, topic_phase, topic_phase_inner_st_frame, hinner,
          ih, hrest, except_bind_ok]

theorem generic_phase_st_frame
    (S C : List QuestionRecord → Nat → List QuestionRecord) (b : Bank) :
    ∀ rem, generic_phase_st S C b rem = (b, generic_phase S C b rem) := by
  intro rem
  induction rem with
  | nil => rfl
  | cons p rest ih =>
    obtain ⟨m, n⟩ := p
    by_cases hn : 0 < n
    · cases hsel : select_questions S C (generic_pool b m) n.toNat with
      | error e =>
        simp [generic_phase_st, generic_phase, bank_read_generic, hn, hsel,
          except_bind_err]
      | ok r =>
        cases hrest : generic_phase S C b rest with
        | error e =>
          simp [generic_phase_st, generic_phase, bank_read_generic, hn, hsel,
            ih, hrest, except_bind_ok, except_bind_err]
        | ok rs =>
          simp [generic_phase_st, generic_phase, bank_read_generic, hn, hsel,
            ih, hrest, except_bind_ok]
    · simp [generic_phase_st, generic_phase, hn, ih]

/-- Claim C9: one invocation of paper generation leaves the question bank
unchanged.  Every operation the Python code performs on the `topics`
dictionary — `dict.get` at line 92, `dict.items` and `dict.get` at lines
105-107 — is a read with no mutation in CPython, and the rendering loop
never touches the bank; threading the bank state through each of these
operations returns it exactly as it was passed in, for every quota, oracle
and outcome (success or exception). -/
theorem create_question_paper_st_frame
    (S C : List QuestionRecord → Nat → List QuestionRecord)
    (resolve : String → Bool) (b : Bank) (nqt : List (Int × Nat))
    (stq : List (String × List (Int × Nat))) :
    create_question_paper_st S C resolve b nqt stq =
      (b, create_question_paper S C resolve b nqt stq) := by
  unfold create_question_paper_st create_question_paper create_selection
  rw [topic_phase_st_frame]
  cases h1 : topic_phase S C b nqt stq with
  | error e => simp [except_bind_err]
  | ok sel1 =>
    simp only [except_bind_ok]
    by_cases hany :
        (remaining_questions_per_type nqt sel1).any (fun p => 0 < p.2) = true
    · rw [generic_phase_st_frame]
      cases h2 : generic_phase S C b (remaining_questions_per_type nqt sel1) with
      | error e => simp [hany, h2, except_bind_err]
      | ok sel2 => simp [hany, h2, except_bind_ok]
    · simp [hany, except_bind_ok]

theorem parse_line_marks {line : String} {t : String} {m : Int}
    {q : QuestionRecord} (h : parse_line line = Except.ok (t, m, q)) :
    q.marks = m := by
  unfold parse_line at h
  split at h
  · split at h
    · injection h with h2
      cases h2
      rfl
    · exact Except.noConfusion h
  · exact Except.noConfusion h

theorem aupdate_mem {α β : Type} [DecidableEq α] {l : List (α × β)} {a : α}
    {d : β} {f : β → β} {p : α × β} (h : p ∈ aupdate l a d f) :
    p ∈ l ∨ ∃ v, p = (a, f v) ∧ ((a, v) ∈ l ∨ v = d) := by
  induction l with
  | nil =>
    unfold aupdate at h
    rw [List.mem_singleton] at h
    exact Or.inr ⟨d, h, Or.inr rfl⟩
  | cons q rest ih =>
    obtain ⟨k, v⟩ := q
    unfold aupdate at h
    by_cases hk : k = a
    · subst hk
      rw [if_pos rfl] at h
      rcases List.mem_cons.mp h with h1 | h1
      · exact Or.inr ⟨v, h1, Or.inl (List.mem_cons_self _ _)⟩
      · exact Or.inl (List.mem_cons_of_mem _ h1)
    · rw [if_neg hk] at h
      rcases List.mem_cons.mp h with h1 | h1
      · exact Or.inl (by rw [h1]; exact List.mem_cons_self _ _)
      · rcases ih h1 with h2 | ⟨w, hw1, hw2⟩
        · exact Or.inl (List.mem_cons_of_mem _ h2)
        · rcases hw2 with h3 | h3
          · exact Or.inr ⟨w, hw1, Or.inl (List.mem_cons_of_mem _ h3)⟩
          · exact Or.inr ⟨w, hw1, Or.inr h3⟩

theorem insert_question_wf {b : Bank} (hWF : BankWF b) {t : String} {m : Int}
    {q : QuestionRecord} (hq : q.marks = m) :
    BankWF (insert_question b t m q) := by
  intro p hp e he x hx
  unfold insert_question at hp
  rcases aupdate_mem hp with h1 | ⟨tq, hp2, hsrc⟩
  · exact hWF p h1 e he x hx
  · subst hp2
    rcases aupdate_mem he with h2 | ⟨qs, he2, hsrc2⟩
    · rcases hsrc with h3 | h3
      · exact hWF (t, tq) h3 e h2 x hx
      · subst h3
        simp at h2
    · subst he2
      rcases List.mem_append.mp hx with h4 | h4
      · rcases hsrc2 with h5 | h5
        · rcases hsrc with h3 | h3
          · exact hWF (t, tq) h3 (m, qs) h5 x h4
          · subst h3
            simp at h5
        · subst h5
          simp at h4
      · rw [List.mem_singleton] at h4
        subst h4
        exact hq

theorem read_loop_wf :
    ∀ (lines : List String) (b bOut : Bank), BankWF b →
      read_loop b lines = Except.ok bOut → BankWF bOut := by
  intro lines
  induction lines with
  | nil =>
    intro b bOut hWF h
    cases h
    exact hWF
  | cons line rest ih =>
    intro b bOut hWF h
    unfold read_loop at h
    obtain ⟨a, ha, h2⟩ := except_bind_ok_inv h
    obtain ⟨t3, m, q⟩ := a
    exact ih _ _ (insert_question_wf hWF (parse_line_marks ha)) h2

/-- Claim C10: a bank built by the loader satisfies the invariant that
every record stored under `bank[t][m]` carries `marks = m`; consequently a
record drawn from the pool `bank[t][m]` counts under mark value `m` when
reconciliation counts by the `marks` field. -/
theorem read_question_bank_wf {lines : List String} {b : Bank}
    (h : read_question_bank lines = Except.ok b) :
    BankWF b ∧ ∀ (t : String) (m : Int) (q : QuestionRecord),
      q ∈ getPool b t m → q.marks = m := by
  have hWF : BankWF b := by
    refine read_loop_wf lines [] b ?_ h
    intro p hp
    exact absurd hp (List.not_mem_nil p)
  exact ⟨hWF, fun t m q hq => getPool_marks hWF hq⟩

/-- Witness for C10 on a concrete one-line input file. -/
theorem read_question_bank_wf_witness :
    BankWF [("Optics", [(1, [qOptics1])])] ∧
      ∀ (t : String) (m : Int) (q : QuestionRecord),
        q ∈ getPool [("Optics", [(1, [qOptics1])])] t m → q.marks = m :=
  @read_question_bank_wf ["Optics|Define refraction.|1"]
    [("Optics", [(1, [qOptics1])])] rfl
